import Mathlib

/-!
# Verification of the pptx-slide-translator core

A shallow embedding of the core logic of the repository, with the
spec claims settled as theorems.

Embedded source files:
* `backend/translator.py` — batched translation pipeline
  (`translate_texts_openai_async`, `collect_texts_from_shape`,
  `translate_pptx_async`, `analyze_pptx`);
* `backend/main.py` — the job scheduler loop
  (`process_translation_queue`) and its per-job pipeline;
* `backend/token_counter.py` — the pricing calculator
  (`OpenAIPricingCalculator.calculate_cost`, `_normalize_model_name`).

Modelling conventions:
* Python strings are Lean `String` (a wrapper around `List Char`);
  `str.strip()` / `str.lower()` / `str.upper()` are modelled over the
  ASCII range, which covers all model names, ids and slide texts the
  claims mention;
* the external LLM backend is an explicit parameter: a function from
  the batch sent to it to a `ChunkResult`, which covers the three
  outcomes the code distinguishes (call raised, structurally invalid
  result, mapping of ids to translations);
* Python numbers used by the pricing table are embedded as `Rat`;
  `round(x, 6)` is round-half-even at six decimal places;
* `asyncio.gather` returns per-task results in task order regardless
  of completion order, so the fan-out over batches is embedded as an
  order-preserving map over the batch list;
* fallible document parsing (`Presentation(path)`) is an
  `Except String Document` value handed to the embedded functions.
-/

/-! ## Python string primitives -/

/-- The whitespace characters removed by Python `str.strip()`
(ASCII fragment of `str.isspace`). -/
def isPySpace (c : Char) : Bool :=
  c == ' ' || c == '\t' || c == '\n' || c == '\x0d' || c == '\x0b' || c == '\x0c'

/-- `str.strip()` on the character list: drop whitespace from the front,
then from the back. -/
def stripList (l : List Char) : List Char :=
  ((l.dropWhile isPySpace).reverse.dropWhile isPySpace).reverse

/-- Python `str.strip()`. -/
def pyStrip (s : String) : String := ⟨stripList s.data⟩

/-- ASCII case table used by `pyLower`/`pyUpper`: uppercase letter paired
with its lowercase form. -/
def asciiCasePairs : List (Char × Char) :=
  [('A','a'), ('B','b'), ('C','c'), ('D','d'), ('E','e'), ('F','f'), ('G','g'),
   ('H','h'), ('I','i'), ('J','j'), ('K','k'), ('L','l'), ('M','m'), ('N','n'),
   ('O','o'), ('P','p'), ('Q','q'), ('R','r'), ('S','s'), ('T','t'), ('U','u'),
   ('V','v'), ('W','w'), ('X','x'), ('Y','y'), ('Z','z')]

/-- Lowercase one character (ASCII fragment of Python `str.lower()`). -/
def lowerChar (c : Char) : Char :=
  ((asciiCasePairs.lookup c).getD c)

/-- Uppercase one character (ASCII fragment of Python `str.upper()`). -/
def upperChar (c : Char) : Char :=
  (((asciiCasePairs.map (fun p => (p.2, p.1))).lookup c).getD c)

/-- Python `str.lower()` (ASCII fragment). -/
def pyLower (s : String) : String := ⟨s.data.map lowerChar⟩

/-- Python `str.upper()` (ASCII fragment). -/
def pyUpper (s : String) : String := ⟨s.data.map upperChar⟩

/-- Python `needle in hay` on character lists: `needle` occurs as a
contiguous substring. -/
def containsSubList (needle : List Char) : List Char → Bool
  | [] => needle.isEmpty
  | c :: rest => needle.isPrefixOf (c :: rest) || containsSubList needle rest

/-- Python substring test `needle in hay`. -/
def containsSub (needle hay : String) : Bool :=
  containsSubList needle.data hay.data

/-! ## `backend/translator.py`: batched translation

`translate_texts_openai_async` filters out empty texts, assigns the id
`text_<original index>` to each remaining text, splits them into batches
of 10, sends every batch to the backend, and reassembles the answers at
the original indices. -/

/-- One entry of `non_empty_texts`: the Python dict
`{"id": f"text_{i}", "text": text.strip()}`. -/
structure TransItem where
  id : String
  text : String
deriving DecidableEq, Repr

/-- The id assigned to the text at original index `i`: `f"text_{i}"`. -/
def mkId (i : Nat) : String := "text_" ++ toString i

/-- Outcome of one backend call for one batch, as distinguished by
`process_chunk` (translator.py lines 93-113):
* `raised` — `chain.ainvoke` threw (caught at line 111);
* `notMapping` — the parsed result is not a dict with a
  `"translations"` key (line 96);
* `ok` — a list of `(id, translated)` pairs (the `"translations"`
  list, each entry a dict with `"id"` and `"translated"`). -/
inductive ChunkResult where
  | raised
  | notMapping
  | ok (translations : List (String × String))
deriving DecidableEq, Repr

/-- The translation backend: what one batch request returns. -/
def Backend : Type := List TransItem → ChunkResult

/-- Lookup in the Python dict comprehension
`{item["id"]: item["translated"] for item in translations}`:
a later pair with the same key overwrites an earlier one. -/
def dictGet : List (String × String) → String → Option String
  | [], _ => none
  | (a, b) :: rest, k =>
    match dictGet rest k with
    | some v => some v
    | none => if a == k then some b else none

/-- `process_chunk` (translator.py lines 70-113): on a raised call or a
structurally invalid result the whole chunk falls back to the texts that
were sent; otherwise each item resolves through the id map, falling back
to its sent text when its id is absent or the translation is blank. -/
def process_chunk (backend : Backend) (chunk : List TransItem) : List String :=
  match backend chunk with
  | .raised => chunk.map (fun item => item.text)
  | .notMapping => chunk.map (fun item => item.text)
  | .ok translations =>
    chunk.map (fun item =>
      let translated := (dictGet translations item.id).getD item.text
      if (pyStrip translated).data.isEmpty then item.text else translated)

/-- The per-item resolution `process_chunk` applies, given the backend's
answer for the chunk. -/
def itemResult (r : ChunkResult) (item : TransItem) : String :=
  match r with
  | .raised => item.text
  | .notMapping => item.text
  | .ok translations =>
    let translated := (dictGet translations item.id).getD item.text
    if (pyStrip translated).data.isEmpty then item.text else translated

/-- The single pass of translator.py lines 44-52 over `enumerate(texts)`,
keeping the entries whose stripped text is non-empty. -/
def filteredEnum (texts : List String) : List (Nat × String) :=
  texts.enum.filter (fun p => !(pyStrip p.2).data.isEmpty)

/-- `non_empty_texts` (translator.py lines 44-51): id and stripped text
of every non-blank entry. -/
def non_empty_texts (texts : List String) : List TransItem :=
  (filteredEnum texts).map (fun p => ⟨mkId p.1, pyStrip p.2⟩)

/-- `text_indices` (translator.py lines 45-52): the original index of
every non-blank entry, in order. -/
def text_indices (texts : List String) : List Nat :=
  (filteredEnum texts).map Prod.fst

/-- `batch_size = 10` (translator.py line 67). -/
def batch_size : Nat := 10

/-- The batch split of translator.py lines 116-119:
`non_empty_texts[i:i+batch_size] for i in range(0, len, batch_size)`. -/
def chunkBatches (xs : List α) : List (List α) :=
  (List.range ((xs.length + (batch_size - 1)) / batch_size)).map
    (fun j => (xs.drop (batch_size * j)).take batch_size)

/-- `all_translations` (translator.py lines 116-124): the per-batch
results concatenated in batch order (`asyncio.gather` keeps task
order). -/
def all_translations (backend : Backend) (texts : List String) : List String :=
  ((chunkBatches (non_empty_texts texts)).map (process_chunk backend)).flatten

/-- `translate_texts_openai_async` (translator.py lines 36-134): the
whole batch-translation operation, reassembling a full-length result
list (lines 126-134). -/
def translate_texts_openai_async (backend : Backend) (texts : List String) :
    List String :=
  if texts.isEmpty then []
  else if (non_empty_texts texts).isEmpty then List.replicate texts.length ""
  else
    let alls := all_translations backend texts
    (text_indices texts).enum.foldl
      (fun final p =>
        final.set p.2
          (if p.1 < alls.length then alls.getD p.1 "" else texts.getD p.2 ""))
      (List.replicate texts.length "")

/-! ## `backend/translator.py`: shape-tree collection and writeback

`collect_texts_from_shape` (lines 137-167) walks one shape: groups
recurse, tables visit every cell of every row, text frames visit every
run of every paragraph; a slot is collected iff its stripped text is
non-empty.  The collected `text_objects` are mutable references visited
in the same order, so writing the translations back
(`translate_pptx_async` lines 192-200) is embedded as a second walk in
the identical traversal order that consumes one translation per
collected slot and overwrites the slot when the translation is
non-blank. -/

/-- The closed shape taxonomy the code dispatches on: `GROUP` shapes,
`TABLE` shapes (rows of cell texts), shapes with a `text_frame`
(paragraphs of run texts), and everything else. -/
inductive Shape where
  | group (children : List Shape)
  | table (rows : List (List String))
  | textFrame (paragraphs : List (List String))
  | other

/-- Keep the texts of one row/paragraph whose stripped form is
non-empty (`if cell.text.strip():` / `if run.text.strip():`). -/
def keepNonBlank (slots : List String) : List String :=
  slots.filter (fun t => !(pyStrip t).data.isEmpty)

mutual

/-- `collect_texts_from_shape` (translator.py lines 137-167), returning
the collected texts in traversal order. -/
def collect_texts_from_shape : Shape → List String
  | .group children => collectShapeList children
  | .table rows => (rows.map keepNonBlank).flatten
  | .textFrame paragraphs => (paragraphs.map keepNonBlank).flatten
  | .other => []

/-- The recursion of `collect_texts_from_shape` over a group's
children. -/
def collectShapeList : List Shape → List String
  | [] => []
  | s :: rest => collect_texts_from_shape s ++ collectShapeList rest

end

/-- Write translations back into one row/paragraph: each slot that was
collected consumes the next translation and is overwritten when that
translation is non-blank (`if translated_text.strip():`,
translator.py lines 194-200). -/
def applySlots (slots : List String) (ts : List String) :
    List String × List String :=
  match slots with
  | [] => ([], ts)
  | slot :: rest =>
    if (pyStrip slot).data.isEmpty then
      let (rest', ts') := applySlots rest ts
      (slot :: rest', ts')
    else
      match ts with
      | [] => (slot :: rest, [])
      | t :: ts' =>
        let slot' := if (pyStrip t).data.isEmpty then slot else t
        let (rest', ts'') := applySlots rest ts'
        (slot' :: rest', ts'')

/-- Thread translations through a list of rows/paragraphs. -/
def applySlotRows (rows : List (List String)) (ts : List String) :
    List (List String) × List String :=
  match rows with
  | [] => ([], ts)
  | row :: rest =>
    let (row', ts') := applySlots row ts
    let (rest', ts'') := applySlotRows rest ts'
    (row' :: rest', ts'')

mutual

/-- Write translations back into one shape, in the traversal order of
`collect_texts_from_shape`. -/
def applyShape : Shape → List String → Shape × List String
  | .group children, ts =>
    let (children', ts') := applyShapeList children ts
    (.group children', ts')
  | .table rows, ts =>
    let (rows', ts') := applySlotRows rows ts
    (.table rows', ts')
  | .textFrame paragraphs, ts =>
    let (paragraphs', ts') := applySlotRows paragraphs ts
    (.textFrame paragraphs', ts')
  | .other, ts => (.other, ts)

/-- Writeback threaded through a group's children. -/
def applyShapeList : List Shape → List String → List Shape × List String
  | [], ts => ([], ts)
  | s :: rest, ts =>
    let (s', ts') := applyShape s ts
    let (rest', ts'') := applyShapeList rest ts'
    (s' :: rest', ts'')

end

/-- A loaded presentation: the slides, each a list of top-level
shapes. -/
structure Pres where
  slides : List (List Shape)

/-- The collection loop of `translate_pptx_async` lines 180-183 and
`analyze_pptx` lines 218-220: every slide, every shape, recursively. -/
def collectPres (prs : Pres) : List String :=
  (prs.slides.map (fun shapes => (shapes.map collect_texts_from_shape).flatten)).flatten

/-- Writeback over the whole presentation, same traversal order. -/
def applyPres (prs : Pres) (ts : List String) : Pres :=
  ⟨(prs.slides.foldl
      (fun acc shapes =>
        let (shapes', rest) := applyShapeList shapes acc.2
        (acc.1 ++ [shapes'], rest))
      (([] : List (List Shape)), ts)).1⟩

/-- A Python runtime value appearing in the tuple returned by
`translate_pptx_async`; the scheduler's unpack only inspects the
tuple's arity. -/
inductive PyVal where
  | pyint (n : Nat)
  | pydict
deriving DecidableEq, Repr

/-- `translate_pptx_async` (translator.py lines 170-205): collect every
text, batch-translate, write the results back, save, and return the
Python tuple `(len(prs.slides), applied_count)` — two elements.  The
saved output document is returned alongside the tuple. -/
def translate_pptx_async (backend : Backend) (prs : Pres) :
    Pres × List PyVal :=
  let texts_to_translate := collectPres prs
  if texts_to_translate.isEmpty then
    (prs, [.pyint prs.slides.length, .pyint 0])
  else
    let translated_texts := translate_texts_openai_async backend texts_to_translate
    let prs' := applyPres prs translated_texts
    let applied_count :=
      (translated_texts.take texts_to_translate.length).countP
        (fun t => !(pyStrip t).data.isEmpty)
    (prs', [.pyint prs.slides.length, .pyint applied_count])

/-- The dict returned by `analyze_pptx`. -/
structure AnalyzeResult where
  pages : Nat
  text_count : Nat
  success : Bool
  error : Option String
deriving DecidableEq, Repr

/-- `analyze_pptx` (translator.py lines 208-233): total on every parse
outcome; a parse failure is caught and reported as
`{"pages": 0, "text_count": 0, "success": False, "error": str(e)}`
instead of propagating. -/
def analyze_pptx (parsed : Except String Pres) : AnalyzeResult :=
  match parsed with
  | .ok prs =>
    let texts_to_translate :=
      (prs.slides.map (fun shapes => (shapes.map collect_texts_from_shape).flatten)).flatten
    { pages := prs.slides.length
      text_count := texts_to_translate.length
      success := true
      error := none }
  | .error e =>
    { pages := 0
      text_count := 0
      success := false
      error := some e }

/-! ## `backend/main.py`: the per-job pipeline

`process_translation_queue` lines 122-163 mark the job `processing`,
run `translate_pptx_async`, and unpack its return value as
`pages, text_count, token_metrics = await translate_pptx_async(...)` —
a three-element unpack.  Any exception in that block (line 165) marks
the job `failed`.  The unpack is embedded as a three-element pattern
match on the returned tuple, with the mismatch arm taking the `except`
path (Python raises `ValueError` when the arity differs). -/

/-- Job states of `TranslationJob.status` (main.py line 35). -/
inductive JobStatus where
  | queued
  | processing
  | completed
  | failed
deriving DecidableEq, Repr

/-- The try-block of `process_translation_queue` (main.py lines
122-171) for one admitted job: the final status it assigns, and the
output document as saved by `translate_pptx_async` before its return
value is unpacked. -/
def run_job (backend : Backend) (prs : Pres) : JobStatus × Pres :=
  let (outPrs, ret) := translate_pptx_async backend prs
  match ret with
  | [_, _, _] => (.completed, outPrs)
  | _ => (.failed, outPrs)

/-- The status history of one job that gets admitted: created `queued`
(main.py line 282), marked `processing` (line 125), then the pipeline
outcome. -/
def job_status_trace (backend : Backend) (prs : Pres) : List JobStatus :=
  [.queued, .processing, (run_job backend prs).1]

/-! ## `backend/token_counter.py`: pricing

`OpenAIPricingCalculator.PRICING` is a dict from model-name keys to
per-1K-token input/output prices; `calculate_cost` normalizes the model
name, looks the price up (falling back to the `"default"` entry), and
returns the three costs rounded to six decimal places. -/

/-- One pricing entry: USD per 1K input tokens and per 1K output
tokens. -/
structure Pricing where
  inputPrice : Rat
  outputPrice : Rat
deriving DecidableEq, Repr

/-- `OpenAIPricingCalculator.PRICING` (token_counter.py lines 16-146),
in source order. -/
def PRICING : List (String × Pricing) :=
  [("gpt-5", ⟨0.00125, 0.010⟩),
   ("gpt-5-mini", ⟨0.00025, 0.002⟩),
   ("gpt-5-nano", ⟨0.00005, 0.0004⟩),
   ("gpt-5-chat-latest", ⟨0.00125, 0.010⟩),
   ("gpt-5-codex", ⟨0.00125, 0.010⟩),
   ("gpt-5-pro", ⟨0.015, 0.120⟩),
   ("gpt-4.1", ⟨0.002, 0.008⟩),
   ("gpt-4.1-mini", ⟨0.0004, 0.0016⟩),
   ("gpt-4.1-nano", ⟨0.0001, 0.0004⟩),
   ("o1", ⟨0.015, 0.060⟩),
   ("o1-pro", ⟨0.150, 0.600⟩),
   ("o3", ⟨0.002, 0.008⟩),
   ("o3-pro", ⟨0.020, 0.080⟩),
   ("o3-deep-research", ⟨0.010, 0.040⟩),
   ("o4-mini", ⟨0.0011, 0.0044⟩),
   ("o4-mini-deep-research", ⟨0.002, 0.008⟩),
   ("o3-mini", ⟨0.0011, 0.0044⟩),
   ("o1-mini", ⟨0.0011, 0.0044⟩),
   ("gpt-4o", ⟨0.0025, 0.010⟩),
   ("gpt-4o-mini", ⟨0.000150, 0.000600⟩),
   ("gpt-4o-2024-05-13", ⟨0.005, 0.015⟩),
   ("gpt-realtime", ⟨0.004, 0.016⟩),
   ("gpt-realtime-mini", ⟨0.0006, 0.0024⟩),
   ("gpt-4", ⟨0.03, 0.06⟩),
   ("gpt-4-32k", ⟨0.06, 0.12⟩),
   ("gpt-4-turbo", ⟨0.01, 0.03⟩),
   ("gpt-3.5-turbo", ⟨0.0005, 0.0015⟩),
   ("gpt-3.5-turbo-16k", ⟨0.003, 0.004⟩),
   ("default", ⟨0.0004, 0.0016⟩)]

/-- `_normalize_model_name` (token_counter.py lines 178-261): lowercase
and strip, return an exact `PRICING` key as-is, otherwise run the
`elif` chain of substring checks, otherwise `"default"`. -/
def _normalize_model_name (model_name : String) : String :=
  let model_lower := pyStrip (pyLower model_name)
  if (PRICING.lookup model_lower).isSome then model_lower
  else if containsSub "gpt-5-pro" model_lower then "gpt-5-pro"
  else if containsSub "gpt-5-nano" model_lower then "gpt-5-nano"
  else if containsSub "gpt-5-mini" model_lower then "gpt-5-mini"
  else if containsSub "gpt-5-chat-latest" model_lower then "gpt-5-chat-latest"
  else if containsSub "gpt-5-codex" model_lower then "gpt-5-codex"
  else if containsSub "gpt-5" model_lower then "gpt-5"
  else if containsSub "gpt-4.1-nano" model_lower then "gpt-4.1-nano"
  else if containsSub "gpt-4.1-mini" model_lower then "gpt-4.1-mini"
  else if containsSub "gpt-4.1" model_lower then "gpt-4.1"
  else if containsSub "o4-mini-deep-research" model_lower then "o4-mini-deep-research"
  else if containsSub "o4-mini" model_lower then "o4-mini"
  else if containsSub "o3-deep-research" model_lower then "o3-deep-research"
  else if containsSub "o3-pro" model_lower then "o3-pro"
  else if containsSub "o3-mini" model_lower then "o3-mini"
  else if containsSub "o3" model_lower then "o3"
  else if containsSub "o1-pro" model_lower then "o1-pro"
  else if containsSub "o1-mini" model_lower then "o1-mini"
  else if containsSub "o1" model_lower then "o1"
  else if containsSub "gpt-4o-mini" model_lower then "gpt-4o-mini"
  else if containsSub "gpt-4o-2024-05-13" model_lower then "gpt-4o-2024-05-13"
  else if containsSub "gpt-4o" model_lower then "gpt-4o"
  else if containsSub "gpt-realtime-mini" model_lower then "gpt-realtime-mini"
  else if containsSub "gpt-realtime" model_lower then "gpt-realtime"
  else if containsSub "gpt-4-turbo" model_lower then "gpt-4-turbo"
  else if containsSub "gpt-4-32k" model_lower then "gpt-4-32k"
  else if containsSub "gpt-4" model_lower then "gpt-4"
  else if containsSub "gpt-3.5-turbo-16k" model_lower then "gpt-3.5-turbo-16k"
  else if containsSub "gpt-3.5-turbo" model_lower then "gpt-3.5-turbo"
  else "default"

/-- Round an integer-valued choice at a half: Python `round()` uses
banker's rounding (round-half-even). -/
def roundHalfEven (q : Rat) : Int :=
  let f := ⌊q⌋
  if q - f < 1 / 2 then f
  else if 1 / 2 < q - f then f + 1
  else if f % 2 = 0 then f else f + 1

/-- Python `round(x, 6)`. -/
def round6 (q : Rat) : Rat := (roundHalfEven (q * 1000000) : Rat) / 1000000

/-- The dict returned by `calculate_cost`. -/
structure CostBreakdown where
  input_cost : Rat
  output_cost : Rat
  total_cost : Rat
deriving DecidableEq, Repr

/-- `OpenAIPricingCalculator.calculate_cost` (token_counter.py lines
148-176): look up the normalized model (default tier when absent) and
charge per 1K tokens, each component rounded to six decimals. -/
def calculate_cost (model_name : String) (input_tokens output_tokens : Nat) :
    CostBreakdown :=
  let normalized_model := _normalize_model_name model_name
  let pricing :=
    (PRICING.lookup normalized_model).getD ((PRICING.lookup "default").getD ⟨0, 0⟩)
  let input_cost := ((input_tokens : Rat) / 1000) * pricing.inputPrice
  let output_cost := ((output_tokens : Rat) / 1000) * pricing.outputPrice
  let total_cost := input_cost + output_cost
  { input_cost := round6 input_cost
    output_cost := round6 output_cost
    total_cost := round6 total_cost }

/-! Spec-side reformulation of the normalization, used to state claim
C6: the `elif` chain is equivalent to taking the first match in the
ordered pattern list below, and that list is ordered
most-specific-first. -/

/-- The substring patterns of `_normalize_model_name`, in the order the
`elif` chain checks them. -/
def specPatterns : List String :=
  ["gpt-5-pro", "gpt-5-nano", "gpt-5-mini", "gpt-5-chat-latest",
   "gpt-5-codex", "gpt-5",
   "gpt-4.1-nano", "gpt-4.1-mini", "gpt-4.1",
   "o4-mini-deep-research", "o4-mini", "o3-deep-research", "o3-pro",
   "o3-mini", "o3", "o1-pro", "o1-mini", "o1",
   "gpt-4o-mini", "gpt-4o-2024-05-13", "gpt-4o",
   "gpt-realtime-mini", "gpt-realtime",
   "gpt-4-turbo", "gpt-4-32k", "gpt-4",
   "gpt-3.5-turbo-16k", "gpt-3.5-turbo"]

/-- Modelled from the spec (section 4.3): normalize by exact match
first, then by the first matching pattern of the ordered list,
falling back to the default tier. -/
def normalizeSpec (model_name : String) : String :=
  let model_lower := pyStrip (pyLower model_name)
  if (PRICING.lookup model_lower).isSome then model_lower
  else ((specPatterns.find? (fun p => containsSub p model_lower)).getD "default")

/-! ## `backend/main.py`: the scheduler loop as a transition system

`process_translation_queue` (main.py lines 104-208) and the submission
endpoint mutate the globals `translation_queue`, `active_jobs` and
`processing_count`.  The observable transitions between suspension
points of the loop, together with job submission, form the step
relation below.  Job ids (uuids) are embedded as naturals; a
submission's id is fresh, never colliding with a registered job. -/

/-- The mutable scheduler state: the FIFO queue of submitted job ids,
the ids currently inside the loop's processing section, the
`active_jobs` registry (insertion-ordered id/status pairs), and the
`processing_count` counter. -/
structure SchedState where
  queue : List Nat
  inflight : List Nat
  jobs : List (Nat × JobStatus)
  processing_count : Nat

/-- `active_jobs[job_id].status = st`, guarded by
`if job_id in active_jobs` — a no-op when the id is absent. -/
def setStatus (jobs : List (Nat × JobStatus)) (j : Nat) (st : JobStatus) :
    List (Nat × JobStatus) :=
  jobs.map (fun p => if p.1 = j then (p.1, st) else p)

/-- Number of registered jobs whose status is `processing`. -/
def countProcessing (jobs : List (Nat × JobStatus)) : Nat :=
  jobs.countP (fun p => p.2 == JobStatus.processing)

/-- Transitions of the scheduler with concurrency bound `N`
(`MAX_CONCURRENT_TRANSLATIONS`):
* `submit` — the upload endpoint registers a fresh job as `"queued"`
  (main.py lines 278-303) and enqueues it;
* `requeue` — the loop pulls the head but the bound is reached, so it
  puts the job back at the tail (lines 113-117);
* `start` — the loop pulls the head below the bound, increments
  `processing_count` and marks the job `"processing"`
  (lines 119-125);
* `finishOk` / `finishFail` — the pipeline ends, the job is marked
  `"completed"` or `"failed"` and the `finally` block decrements
  `processing_count` (lines 140-142, 169-172, 200-201). -/
inductive SchedStep (N : Nat) : SchedState → SchedState → Prop where
  | submit (s : SchedState) (j : Nat) (hfresh : s.jobs.lookup j = none) :
      SchedStep N s
        ⟨s.queue ++ [j], s.inflight, s.jobs ++ [(j, .queued)], s.processing_count⟩
  | requeue (s : SchedState) (j : Nat) (rest : List Nat)
      (hq : s.queue = j :: rest) (hfull : N ≤ s.processing_count) :
      SchedStep N s ⟨rest ++ [j], s.inflight, s.jobs, s.processing_count⟩
  | start (s : SchedState) (j : Nat) (rest : List Nat)
      (hq : s.queue = j :: rest) (hfree : s.processing_count < N) :
      SchedStep N s
        ⟨rest, j :: s.inflight, setStatus s.jobs j .processing, s.processing_count + 1⟩
  | finishOk (s : SchedState) (j : Nat) (h : j ∈ s.inflight) :
      SchedStep N s
        ⟨s.queue, s.inflight.erase j, setStatus s.jobs j .completed, s.processing_count - 1⟩
  | finishFail (s : SchedState) (j : Nat) (h : j ∈ s.inflight) :
      SchedStep N s
        ⟨s.queue, s.inflight.erase j, setStatus s.jobs j .failed, s.processing_count - 1⟩

/-- The state at service startup: empty queue, empty registry,
`processing_count = 0`. -/
def SchedInit : SchedState := ⟨[], [], [], 0⟩

/-- States the scheduler can reach from startup under bound `N`. -/
def SchedReachable (N : Nat) (s : SchedState) : Prop :=
  Relation.ReflTransGen (SchedStep N) SchedInit s

/-! ## Generic lemmas -/

theorem foldl_set_length {α : Type _} (qs : List (Nat × α)) (init : List α) :
    (qs.foldl (fun l q => l.set q.1 q.2) init).length = init.length := by
  induction qs generalizing init with
  | nil => rfl
  | cons q rest ih => rw [List.foldl_cons, ih, List.length_set]

theorem foldl_set_getElem?_notMem {α : Type _} (qs : List (Nat × α))
    (init : List α) (j : Nat) (h : ∀ q ∈ qs, q.1 ≠ j) :
    (qs.foldl (fun l q => l.set q.1 q.2) init)[j]? = init[j]? := by
  induction qs generalizing init with
  | nil => rfl
  | cons q rest ih =>
    rw [List.foldl_cons, ih _ (fun p hp => h p (List.mem_cons_of_mem _ hp)),
      List.getElem?_set_ne (h q (List.mem_cons_self _ _))]

theorem foldl_set_getElem?_mem {α : Type _} (qs : List (Nat × α))
    (init : List α) (j : Nat) (v : α) (k : Nat)
    (hqk : qs[k]? = some (j, v))
    (hnd : (qs.map Prod.fst).Nodup)
    (hlt : j < init.length) :
    (qs.foldl (fun l q => l.set q.1 q.2) init)[j]? = some v := by
  induction qs generalizing init k with
  | nil => exact absurd hqk (by simp)
  | cons q rest ih =>
    rw [List.map_cons, List.nodup_cons] at hnd
    cases k with
    | zero =>
      rw [List.getElem?_cons_zero] at hqk
      cases hqk
      rw [List.foldl_cons]
      have hni : ∀ p ∈ rest, p.1 ≠ j := by
        intro p hp hcontra
        exact hnd.1 (hcontra ▸ List.mem_map.mpr ⟨p, hp, rfl⟩)
      rw [foldl_set_getElem?_notMem _ _ _ hni]
      exact List.getElem?_set_self hlt
    | succ k' =>
      rw [List.getElem?_cons_succ] at hqk
      rw [List.foldl_cons]
      exact ih (init.set q.1 q.2) k' hqk hnd.2
        (by rw [List.length_set]; exact hlt)

theorem dictGet_mem {ps : List (String × String)} {k v : String}
    (h : dictGet ps k = some v) : (k, v) ∈ ps := by
  induction ps with
  | nil => exact absurd h (by simp [dictGet])
  | cons p rest ih =>
    obtain ⟨a, b⟩ := p
    rw [dictGet] at h
    cases hr : dictGet rest k with
    | some v₂ =>
      rw [hr] at h
      cases h
      exact List.mem_cons_of_mem _ (ih hr)
    | none =>
      rw [hr] at h
      by_cases hak : a == k
      · rw [if_pos hak] at h
        cases h
        have : a = k := by simpa using hak
        subst this
        exact List.mem_cons_self _ _
      · rw [if_neg hak] at h
        exact absurd h (by simp)

theorem dictGet_isSome_of_mem {ps : List (String × String)} {k : String}
    (h : k ∈ ps.map Prod.fst) : (dictGet ps k).isSome := by
  induction ps with
  | nil => simp at h
  | cons p rest ih =>
    obtain ⟨a, b⟩ := p
    rw [dictGet]
    rw [List.map_cons] at h
    cases hr : dictGet rest k with
    | some v₂ => simp
    | none =>
      rcases List.mem_cons.mp h with hak | hmem
      · simp [hak]
      · have hsome := ih hmem
        rw [hr] at hsome
        exact absurd hsome (by simp)

theorem process_chunk_eq_map (backend : Backend) (chunk : List TransItem) :
    process_chunk backend chunk = chunk.map (itemResult (backend chunk)) := by
  cases h : backend chunk <;> simp [process_chunk, itemResult, h]

theorem chunkBatches_cons {α : Type _} (x : α) (xs : List α) :
    chunkBatches (x :: xs) =
      ((x :: xs).take batch_size) :: chunkBatches ((x :: xs).drop batch_size) := by
  have hcnt : ((x :: xs).length + (batch_size - 1)) / batch_size
      = (((x :: xs).drop batch_size).length + (batch_size - 1)) / batch_size + 1 := by
    simp only [List.length_cons, List.length_drop, batch_size]
    omega
  unfold chunkBatches
  rw [hcnt, List.range_succ_eq_map, List.map_cons, List.map_map]
  rw [Nat.mul_zero, List.drop_zero]
  congr 1
  apply List.map_congr_left
  intro j hj
  simp only [Function.comp_apply, List.drop_drop]
  congr 2
  simp only [batch_size]
  omega

theorem chunkBatches_flatten {α : Type _} :
    ∀ xs : List α, (chunkBatches xs).flatten = xs
  | [] => by simp [chunkBatches, batch_size]
  | x :: xs => by
    rw [chunkBatches_cons, List.flatten_cons,
      chunkBatches_flatten ((x :: xs).drop batch_size), List.take_append_drop]
termination_by xs => xs.length
decreasing_by
  simp only [List.length_drop, List.length_cons, batch_size]
  omega

theorem chunkBatches_flatten_getElem? {α β : Type _} (g : List α → α → β) :
    ∀ (xs : List α) (k : Nat) (hk : k < xs.length),
      (((chunkBatches xs).map (fun c => c.map (g c))).flatten)[k]? =
        some (g ((xs.drop (batch_size * (k / batch_size))).take batch_size)
          (xs.get ⟨k, hk⟩))
  | [], k, hk => absurd hk (Nat.not_lt_zero k)
  | x :: xs', k, hk => by
    rw [chunkBatches_cons, List.map_cons, List.flatten_cons, List.getElem?_append]
    have hlen : ((((x :: xs').take batch_size).map
        (g ((x :: xs').take batch_size)))).length = min batch_size (x :: xs').length := by
      rw [List.length_map, List.length_take]
    by_cases hsmall : k < batch_size
    · have hkdiv : k / batch_size = 0 := Nat.div_eq_of_lt hsmall
      rw [if_pos (by rw [hlen]; exact lt_min hsmall hk)]
      rw [List.getElem?_map, List.getElem?_take, if_pos hsmall,
        List.getElem?_eq_getElem hk]
      simp [hkdiv]
    · have hbig : batch_size ≤ k := Nat.le_of_not_lt hsmall
      have hlen10 : ((((x :: xs').take batch_size).map
          (g ((x :: xs').take batch_size)))).length = batch_size := by
        rw [hlen]; exact min_eq_left (le_of_lt (lt_of_le_of_lt hbig hk))
      rw [if_neg (by rw [hlen10]; exact hsmall), hlen10]
      have hk' : k - batch_size < ((x :: xs').drop batch_size).length := by
        rw [List.length_drop]; omega
      rw [chunkBatches_flatten_getElem? g ((x :: xs').drop batch_size)
        (k - batch_size) hk']
      congr 1
      have harg : ((x :: xs').drop batch_size).drop
            (batch_size * ((k - batch_size) / batch_size))
          = (x :: xs').drop (batch_size * (k / batch_size)) := by
        rw [List.drop_drop]
        congr 1
        have hb : batch_size = 10 := rfl
        rw [hb] at hbig ⊢
        omega
      have hget : ((x :: xs').drop batch_size).get ⟨k - batch_size, hk'⟩
          = (x :: xs').get ⟨k, hk⟩ := by
        have h1 : ((x :: xs').drop batch_size)[k - batch_size]? = (x :: xs')[k]? := by
          rw [List.getElem?_drop]
          congr 1
          omega
        rw [List.getElem?_eq_getElem hk', List.getElem?_eq_getElem hk] at h1
        simpa using h1
      rw [harg, hget]
termination_by xs _ _ => xs.length
decreasing_by
  simp only [List.length_drop, List.length_cons, batch_size]
  omega

/-- The batch that contains the `k`-th non-empty unit. -/
def chunkOfUnit (texts : List String) (k : Nat) : List TransItem :=
  ((non_empty_texts texts).drop (batch_size * (k / batch_size))).take batch_size

theorem all_translations_getElem? (backend : Backend) (texts : List String)
    (k : Nat) (hk : k < (non_empty_texts texts).length) :
    (all_translations backend texts)[k]? =
      some (itemResult (backend (chunkOfUnit texts k))
        ((non_empty_texts texts).get ⟨k, hk⟩)) := by
  unfold all_translations
  rw [List.map_congr_left (fun c _ => process_chunk_eq_map backend c)]
  exact chunkBatches_flatten_getElem?
    (fun c it => itemResult (backend c) it) _ k hk

theorem all_translations_length (backend : Backend) (texts : List String) :
    (all_translations backend texts).length = (non_empty_texts texts).length := by
  unfold all_translations
  rw [List.length_flatten, List.map_map]
  have hmap : (chunkBatches (non_empty_texts texts)).map
        (List.length ∘ process_chunk backend)
      = (chunkBatches (non_empty_texts texts)).map List.length := by
    apply List.map_congr_left
    intro c _
    simp [process_chunk_eq_map]
  rw [hmap, ← List.length_flatten, chunkBatches_flatten]

theorem mem_chunkOfUnit (texts : List String) (k : Nat)
    (hk : k < (non_empty_texts texts).length) :
    (non_empty_texts texts).get ⟨k, hk⟩ ∈ chunkOfUnit texts k := by
  have h1 : (chunkOfUnit texts k)[k % batch_size]?
      = some ((non_empty_texts texts).get ⟨k, hk⟩) := by
    unfold chunkOfUnit
    rw [List.getElem?_take, if_pos (Nat.mod_lt _ (by simp [batch_size])),
      List.getElem?_drop]
    have hidx : batch_size * (k / batch_size) + k % batch_size = k :=
      Nat.div_add_mod k batch_size
    rw [hidx, List.getElem?_eq_getElem hk]
    simp
  obtain ⟨hlt, heq⟩ := List.getElem?_eq_some.mp h1
  exact heq ▸ List.getElem_mem hlt

theorem text_indices_nodup (texts : List String) : (text_indices texts).Nodup := by
  have h1 : (filteredEnum texts).Sublist texts.enum := List.filter_sublist _
  have h2 : (text_indices texts).Sublist (texts.enum.map Prod.fst) :=
    h1.map Prod.fst
  rw [List.enum_map_fst] at h2
  exact h2.nodup (List.nodup_range _)

theorem filteredEnum_mem {texts : List String} {p : Nat × String}
    (hp : p ∈ filteredEnum texts) :
    texts[p.1]? = some p.2 ∧ ¬(pyStrip p.2).data.isEmpty := by
  obtain ⟨hmem, hpred⟩ := List.mem_filter.mp hp
  obtain ⟨i, t⟩ := p
  obtain ⟨hlt, ht⟩ := List.mem_enum hmem
  refine ⟨?_, by simpa using hpred⟩
  rw [List.getElem?_eq_getElem hlt, ht]

theorem filteredEnum_mem_of (texts : List String) (i : Nat)
    (hi : i < texts.length)
    (hne : ¬(pyStrip (texts.get ⟨i, hi⟩)).data.isEmpty) :
    (i, texts.get ⟨i, hi⟩) ∈ filteredEnum texts := by
  apply List.mem_filter.mpr
  refine ⟨?_, by simpa using hne⟩
  have hilen : i < texts.enum.length := by rw [List.enum_length]; exact hi
  have henum : texts.enum[i] = (i, texts[i]) := List.getElem_enum texts i hilen
  have hmem := List.getElem_mem hilen
  rw [henum] at hmem
  simpa using hmem

/-- The index/value pairs assigned by the reassembly loop of
translator.py lines 126-132. -/
def translateAssignments (backend : Backend) (texts : List String) :
    List (Nat × String) :=
  (text_indices texts).enum.map (fun p =>
    (p.2, if p.1 < (all_translations backend texts).length
          then (all_translations backend texts).getD p.1 ""
          else texts.getD p.2 ""))

theorem translate_eq_foldl (backend : Backend) (texts : List String)
    (h0 : texts.isEmpty = false)
    (h1 : (non_empty_texts texts).isEmpty = false) :
    translate_texts_openai_async backend texts
      = (translateAssignments backend texts).foldl (fun l q => l.set q.1 q.2)
          (List.replicate texts.length "") := by
  unfold translate_texts_openai_async translateAssignments
  rw [h0, h1]
  simp only [Bool.false_eq_true, if_false, List.foldl_map]

theorem translate_texts_length (backend : Backend) (texts : List String) :
    (translate_texts_openai_async backend texts).length = texts.length := by
  by_cases h0 : texts.isEmpty
  · unfold translate_texts_openai_async
    rw [if_pos h0]
    rw [List.isEmpty_iff.mp h0]
  · rw [Bool.not_eq_true] at h0
    by_cases h1 : (non_empty_texts texts).isEmpty
    · unfold translate_texts_openai_async
      rw [h0, if_neg (by simp), if_pos h1, List.length_replicate]
    · rw [Bool.not_eq_true] at h1
      rw [translate_eq_foldl backend texts h0 h1, foldl_set_length,
        List.length_replicate]

theorem translateAssignments_map_fst (backend : Backend) (texts : List String) :
    (translateAssignments backend texts).map Prod.fst = text_indices texts := by
  unfold translateAssignments
  rw [List.map_map]
  have : (Prod.fst ∘ fun p : Nat × Nat =>
      (p.2, if p.1 < (all_translations backend texts).length
            then (all_translations backend texts).getD p.1 ""
            else texts.getD p.2 "")) = Prod.snd := rfl
  rw [this, List.enum_map_snd]

/-- Master lemma, non-blank slot: the output at original index `i` is
the resolution of the unit `{"id": f"text_{i}", "text": texts[i].strip()}`
against the backend's answer for the batch that contains it. -/
theorem translate_getElem?_nonBlank (backend : Backend) (texts : List String)
    (i : Nat) (hi : i < texts.length)
    (hne : ¬(pyStrip (texts.get ⟨i, hi⟩)).data.isEmpty) :
    ∃ k, (non_empty_texts texts)[k]?
        = some ⟨mkId i, pyStrip (texts.get ⟨i, hi⟩)⟩ ∧
      (translate_texts_openai_async backend texts)[i]? =
        some (itemResult (backend (chunkOfUnit texts k))
          ⟨mkId i, pyStrip (texts.get ⟨i, hi⟩)⟩) := by
  have hmem : (i, texts.get ⟨i, hi⟩) ∈ filteredEnum texts :=
    filteredEnum_mem_of texts i hi hne
  obtain ⟨k, hklen, hfek⟩ := List.mem_iff_getElem.mp hmem
  have hkne : k < (non_empty_texts texts).length := by
    unfold non_empty_texts
    rw [List.length_map]
    exact hklen
  have hne_k : (non_empty_texts texts)[k]?
      = some ⟨mkId i, pyStrip (texts.get ⟨i, hi⟩)⟩ := by
    unfold non_empty_texts
    rw [List.getElem?_map, List.getElem?_eq_getElem hklen, hfek]
    rfl
  have h0 : texts.isEmpty = false :=
    List.isEmpty_eq_false.mpr (List.ne_nil_of_length_pos (by omega))
  have h1 : (non_empty_texts texts).isEmpty = false :=
    List.isEmpty_eq_false.mpr (List.ne_nil_of_length_pos (by omega))
  have hti_k : (text_indices texts)[k]? = some i := by
    unfold text_indices
    rw [List.getElem?_map, List.getElem?_eq_getElem hklen, hfek]
    rfl
  have htilen : k < (text_indices texts).length := by
    unfold text_indices
    rw [List.length_map]
    exact hklen
  refine ⟨k, hne_k, ?_⟩
  rw [translate_eq_foldl backend texts h0 h1]
  have hallk : (all_translations backend texts)[k]?
      = some (itemResult (backend (chunkOfUnit texts k))
          ⟨mkId i, pyStrip (texts.get ⟨i, hi⟩)⟩) := by
    rw [all_translations_getElem? backend texts k hkne]
    have : (non_empty_texts texts).get ⟨k, hkne⟩
        = ⟨mkId i, pyStrip (texts.get ⟨i, hi⟩)⟩ := by
      have := hne_k
      rw [List.getElem?_eq_getElem hkne] at this
      simpa using this
    rw [this]
  have hqk : (translateAssignments backend texts)[k]?
      = some (i, itemResult (backend (chunkOfUnit texts k))
          ⟨mkId i, pyStrip (texts.get ⟨i, hi⟩)⟩) := by
    unfold translateAssignments
    have hklen2 : k < (text_indices texts).enum.length := by
      rw [List.enum_length]
      exact htilen
    rw [List.getElem?_map, List.getElem?_eq_getElem hklen2,
      List.getElem_enum]
    have hget_ti : (text_indices texts)[k] = i := by
      have := hti_k
      rw [List.getElem?_eq_getElem htilen] at this
      simpa using this
    have hklt : k < (all_translations backend texts).length := by
      rw [all_translations_length]
      exact hkne
    rw [hget_ti]
    show some (i, if k < (all_translations backend texts).length
          then (all_translations backend texts).getD k ""
          else texts.getD i "")
      = some (i, itemResult (backend (chunkOfUnit texts k))
          ⟨mkId i, pyStrip (texts.get ⟨i, hi⟩)⟩)
    rw [if_pos hklt, List.getD_eq_getElem?_getD, hallk]
    rfl
  apply foldl_set_getElem?_mem _ _ _ _ k hqk
  · rw [translateAssignments_map_fst]
    exact text_indices_nodup texts
  · rw [List.length_replicate]
    exact hi

/-- Master lemma, blank slot: the output at a blank original index is
the empty string. -/
theorem translate_getElem?_blank (backend : Backend) (texts : List String)
    (i : Nat) (hi : i < texts.length)
    (hbl : (pyStrip (texts.get ⟨i, hi⟩)).data.isEmpty) :
    (translate_texts_openai_async backend texts)[i]? = some "" := by
  have h0 : texts.isEmpty = false :=
    List.isEmpty_eq_false.mpr (List.ne_nil_of_length_pos (by omega))
  have hnotmem : ∀ q ∈ translateAssignments backend texts, q.1 ≠ i := by
    intro q hq hqi
    have hfst : q.1 ∈ text_indices texts := by
      rw [← translateAssignments_map_fst backend texts]
      exact List.mem_map.mpr ⟨q, hq, rfl⟩
    rw [hqi] at hfst
    obtain ⟨p, hp, hpi⟩ := List.mem_map.mp hfst
    obtain ⟨hpt, hpne⟩ := filteredEnum_mem hp
    rw [hpi] at hpt
    rw [List.getElem?_eq_getElem hi] at hpt
    have : p.2 = texts.get ⟨i, hi⟩ := by simpa using hpt.symm
    rw [this] at hpne
    exact hpne hbl
  by_cases h1 : (non_empty_texts texts).isEmpty
  · unfold translate_texts_openai_async
    rw [h0, if_neg (by simp), if_pos h1, List.getElem?_replicate, if_pos hi]
  · rw [Bool.not_eq_true] at h1
    rw [translate_eq_foldl backend texts h0 h1,
      foldl_set_getElem?_notMem _ _ _ hnotmem, List.getElem?_replicate,
      if_pos hi]

/-! ## String lemmas: `strip`, `lower`, emptiness -/

theorem string_mk_eq_empty {l : List Char} (h : String.mk l = "") : l = [] := by
  have hd := congrArg String.data h
  simpa using hd

theorem dropWhile_head?_false {p : Char → Bool} :
    ∀ {l : List Char} {a : Char}, (l.dropWhile p).head? = some a → p a = false
  | [], a, h => by simp at h
  | x :: t, a, h => by
    rw [List.dropWhile_cons] at h
    by_cases hx : p x
    · rw [if_pos hx] at h
      exact dropWhile_head?_false h
    · rw [if_neg hx] at h
      rw [List.head?_cons] at h
      cases h
      exact Bool.not_eq_true _ ▸ (by simpa using hx)

theorem dropWhile_eq_self_of_head? {p : Char → Bool} {l : List Char}
    (h : ∀ a, l.head? = some a → p a = false) : l.dropWhile p = l := by
  cases l with
  | nil => rfl
  | cons x t =>
    rw [List.dropWhile_cons, if_neg]
    rw [h x (List.head?_cons)]
    simp

theorem suffix_getLast? {l₁ l₂ : List Char} (h : l₁ <:+ l₂) (hne : l₁ ≠ []) :
    l₂.getLast? = l₁.getLast? := by
  obtain ⟨t, rfl⟩ := h
  rw [List.getLast?_append, Option.or_of_isSome (List.getLast?_isSome.mpr hne)]

theorem stripList_head?_false {l : List Char} {a : Char}
    (h : (stripList l).head? = some a) : isPySpace a = false := by
  unfold stripList at h
  rw [List.head?_reverse] at h
  have hX : ((l.dropWhile isPySpace).reverse.dropWhile isPySpace) ≠ [] := by
    intro hnil
    rw [hnil] at h
    simp at h
  rw [suffix_getLast? (List.dropWhile_suffix _) hX |>.symm,
    List.getLast?_reverse] at h
  exact dropWhile_head?_false ((dropWhile_eq_self_of_head?
    (fun b hb => dropWhile_head?_false hb)) ▸ h)

theorem stripList_getLast?_false {l : List Char} {a : Char}
    (h : (stripList l).getLast? = some a) : isPySpace a = false := by
  unfold stripList at h
  rw [List.getLast?_reverse] at h
  exact dropWhile_head?_false h

theorem stripList_idem (l : List Char) : stripList (stripList l) = stripList l := by
  have h1 : (stripList l).dropWhile isPySpace = stripList l :=
    dropWhile_eq_self_of_head? (fun a ha => stripList_head?_false ha)
  have h2 : (stripList l).reverse.dropWhile isPySpace = (stripList l).reverse := by
    apply dropWhile_eq_self_of_head?
    intro a ha
    rw [List.head?_reverse] at ha
    exact stripList_getLast?_false ha
  show ((((stripList l).dropWhile isPySpace).reverse.dropWhile isPySpace)).reverse
      = stripList l
  rw [h1, h2, List.reverse_reverse]

theorem lookup_some_mem {α β : Type _} [BEq α] [LawfulBEq α]
    {ps : List (α × β)} {k : α} {v : β}
    (h : ps.lookup k = some v) : (k, v) ∈ ps := by
  induction ps with
  | nil => simp [List.lookup] at h
  | cons p rest ih =>
    obtain ⟨a, b⟩ := p
    rw [List.lookup_cons] at h
    by_cases hk : k == a
    · have ha : k = a := by simpa using hk
      rw [hk] at h
      cases h
      rw [ha]
      exact List.mem_cons_self _ _
    · rw [Bool.not_eq_true] at hk
      rw [hk] at h
      exact List.mem_cons_of_mem _ (ih h)

theorem asciiCasePairs_facts :
    ∀ p ∈ asciiCasePairs,
      isPySpace p.1 = false ∧ isPySpace p.2 = false ∧
        asciiCasePairs.lookup p.2 = none := by decide

theorem isPySpace_lowerChar (c : Char) : isPySpace (lowerChar c) = isPySpace c := by
  unfold lowerChar
  cases h : asciiCasePairs.lookup c with
  | none => rw [Option.getD_none]
  | some d =>
    rw [Option.getD_some]
    have hmem := lookup_some_mem h
    have hfacts := asciiCasePairs_facts (c, d) hmem
    rw [hfacts.2.1, hfacts.1]

theorem lowerChar_idem (c : Char) : lowerChar (lowerChar c) = lowerChar c := by
  unfold lowerChar
  cases h : asciiCasePairs.lookup c with
  | none => rw [Option.getD_none, h, Option.getD_none]
  | some d =>
    rw [Option.getD_some]
    have hmem := lookup_some_mem h
    have hfacts := asciiCasePairs_facts (c, d) hmem
    rw [hfacts.2.2, Option.getD_none]

theorem stripList_map_lowerChar (l : List Char) :
    stripList (l.map lowerChar) = (stripList l).map lowerChar := by
  unfold stripList
  have hpred : (isPySpace ∘ lowerChar) = isPySpace := by
    funext c
    exact isPySpace_lowerChar c
  rw [List.dropWhile_map, hpred, ← List.map_reverse, List.dropWhile_map, hpred,
    ← List.map_reverse]

theorem map_lowerChar_idem (l : List Char) :
    (l.map lowerChar).map lowerChar = l.map lowerChar := by
  rw [List.map_map]
  apply List.map_congr_left
  intro c _
  exact lowerChar_idem c

theorem str_ne_empty_of_data {s : String} (h : ¬s.data.isEmpty = true) :
    s ≠ "" := by
  intro heq
  rw [heq] at h
  exact h rfl

theorem pyStrip_eq_empty_iff (s : String) :
    pyStrip s = "" ↔ (pyStrip s).data.isEmpty = true := by
  constructor
  · intro h
    rw [h]
    rfl
  · intro h
    apply String.ext
    rw [List.isEmpty_iff] at h
    simpa using h

theorem ne_empty_of_strip {s : String} (h : ¬(pyStrip s).data.isEmpty = true) :
    s ≠ "" := by
  intro heq
  rw [heq] at h
  exact h rfl

theorem itemResult_ne_empty (r : ChunkResult) (item : TransItem)
    (h : ¬item.text.data.isEmpty = true) : itemResult r item ≠ "" := by
  cases r with
  | raised => exact str_ne_empty_of_data h
  | notMapping => exact str_ne_empty_of_data h
  | ok translations =>
    show (if (pyStrip ((dictGet translations item.id).getD item.text)).data.isEmpty
          then item.text
          else (dictGet translations item.id).getD item.text) ≠ ""
    by_cases hc : (pyStrip ((dictGet translations item.id).getD item.text)).data.isEmpty
    · rw [if_pos hc]
      exact str_ne_empty_of_data h
    · rw [if_neg hc]
      exact ne_empty_of_strip hc

/-- **C3**: for every backend and non-empty input list, the
batch-translation operation returns exactly one output string per input
string, and the output at index `i` is the empty string iff the input
at index `i` was empty or whitespace-only. -/
theorem c3_reassembly_length_and_emptiness (backend : Backend)
    (texts : List String) (_hU : texts ≠ []) :
    (translate_texts_openai_async backend texts).length = texts.length ∧
      ∀ i (hi : i < texts.length),
        ((translate_texts_openai_async backend texts)[i]? = some "" ↔
          pyStrip (texts.get ⟨i, hi⟩) = "") := by
  refine ⟨translate_texts_length backend texts, ?_⟩
  intro i hi
  by_cases hbl : (pyStrip (texts.get ⟨i, hi⟩)).data.isEmpty
  · rw [translate_getElem?_blank backend texts i hi hbl]
    constructor
    · intro _
      exact (pyStrip_eq_empty_iff _).mpr hbl
    · intro _
      rfl
  · obtain ⟨k, hk, hout⟩ := translate_getElem?_nonBlank backend texts i hi hbl
    rw [hout]
    constructor
    · intro hsome
      have heq : itemResult (backend (chunkOfUnit texts k))
          ⟨mkId i, pyStrip (texts.get ⟨i, hi⟩)⟩ = "" := by
        exact Option.some.inj hsome
      exact absurd heq (itemResult_ne_empty _ _ hbl)
    · intro hstrip
      exact absurd ((pyStrip_eq_empty_iff _).mp hstrip) hbl

/-- Witness for C3 at a concrete input: `["a", " "]` with a backend
whose call always raises. -/
theorem c3_reassembly_length_and_emptiness_witness :
    (["a", " "] : List String) ≠ [] ∧
      ((translate_texts_openai_async (fun _ => ChunkResult.raised)
          ["a", " "]).length = (["a", " "] : List String).length ∧
        ∀ i (hi : i < (["a", " "] : List String).length),
          ((translate_texts_openai_async (fun _ => ChunkResult.raised)
              ["a", " "])[i]? = some "" ↔
            pyStrip ((["a", " "] : List String).get ⟨i, hi⟩) = "")) :=
  ⟨by decide,
    c3_reassembly_length_and_emptiness (fun _ => ChunkResult.raised)
      ["a", " "] (by decide)⟩

/-- The backend's answer for a batch is structurally invalid, or omits
the unit id `id` (the situations of spec section 4.2 step 4). -/
def respOmits (r : ChunkResult) (id : String) : Prop :=
  match r with
  | .raised => True
  | .notMapping => True
  | .ok translations => dictGet translations id = none

/-- **C2, counterexample to the claim as stated**: with input
`[" hi "]` (non-blank but carrying surrounding whitespace) and a
backend whose response is invalid, the operation yields `"hi"`, not the
original input text `" hi "` unchanged: the fallback is the *stripped*
text that was sent to the backend, `text.strip()` (translator.py
line 50), not the original entry of the input list. -/
theorem c2_fallback_counterexample :
    (translate_texts_openai_async (fun _ => ChunkResult.raised) [" hi "])[0]?
        = some "hi" ∧
      (translate_texts_openai_async (fun _ => ChunkResult.raised)
          [" hi "])[0]? ≠ some " hi " := by
  constructor
  · decide
  · decide

/-- **C2, amended**: for every unit index `i` whose text is non-blank,
if every batch response is structurally invalid or omits the id
`text_<i>`, the output at index `i` is that unit's original text
stripped of leading/trailing whitespace (hence the original text
itself whenever it carries no surrounding whitespace), and the
operation still returns a full-length list (it does not raise). -/
theorem c2_fallback_stripped (backend : Backend) (texts : List String)
    (i : Nat) (hi : i < texts.length)
    (hne : ¬(pyStrip (texts.get ⟨i, hi⟩)).data.isEmpty = true)
    (hb : ∀ chunk, respOmits (backend chunk) (mkId i)) :
    (translate_texts_openai_async backend texts)[i]?
        = some (pyStrip (texts.get ⟨i, hi⟩)) ∧
      (translate_texts_openai_async backend texts).length = texts.length := by
  refine ⟨?_, translate_texts_length backend texts⟩
  obtain ⟨k, hk, hout⟩ := translate_getElem?_nonBlank backend texts i hi hne
  rw [hout]
  congr 1
  have hbk := hb (chunkOfUnit texts k)
  cases hr : backend (chunkOfUnit texts k) with
  | raised => rfl
  | notMapping => rfl
  | ok translations =>
    rw [hr] at hbk
    have hnone : dictGet translations (mkId i) = none := hbk
    show (if (pyStrip ((dictGet translations (mkId i)).getD
            (pyStrip (texts.get ⟨i, hi⟩)))).data.isEmpty
          then pyStrip (texts.get ⟨i, hi⟩)
          else (dictGet translations (mkId i)).getD
            (pyStrip (texts.get ⟨i, hi⟩)))
        = pyStrip (texts.get ⟨i, hi⟩)
    rw [hnone, Option.getD_none, ite_self]

/-- Witness for C2 (amended) at `[" hi ", "x"]`, unit 0, with a
backend answering a mapping that only contains an unrelated id. -/
theorem c2_fallback_stripped_witness :
    (0 < (([" hi ", "x"] : List String)).length) ∧
      (¬(pyStrip (([" hi ", "x"] : List String).get ⟨0, by decide⟩)).data.isEmpty = true) ∧
      ((translate_texts_openai_async
          (fun _ => ChunkResult.ok [("text_7", "zz")]) [" hi ", "x"])[0]?
          = some (pyStrip (([" hi ", "x"] : List String).get ⟨0, by decide⟩)) ∧
        (translate_texts_openai_async
            (fun _ => ChunkResult.ok [("text_7", "zz")]) [" hi ", "x"]).length
          = ([" hi ", "x"] : List String).length) :=
  ⟨by decide, by decide,
    c2_fallback_stripped (fun _ => ChunkResult.ok [("text_7", "zz")])
      [" hi ", "x"] 0 (by decide) (by decide)
      (fun chunk => by
        show dictGet [("text_7", "zz")] (mkId 0) = none
        decide)⟩

/-- **C4**: with a backend that answers every batch with a mapping
keyed by unit id, listed in an arbitrary per-batch order (any
permutation `perm` of the batch), the resolved translation for id
`text_<i>` is placed at exactly index `i` of the output — output order
matches input order, independent of the per-batch listing order.
Batch completion order cannot reorder results either: `asyncio.gather`
returns per-batch results in task order, which the embedding's
order-preserving map over batches reflects. -/
theorem c4_order_preservation (backend : Backend) (g : String → String)
    (perm : List TransItem → List TransItem)
    (hperm : ∀ chunk, (perm chunk).Perm chunk)
    (hb : ∀ chunk, backend chunk
        = ChunkResult.ok ((perm chunk).map (fun item => (item.id, g item.id))))
    (texts : List String) (i : Nat) (hi : i < texts.length)
    (hne : ¬(pyStrip (texts.get ⟨i, hi⟩)).data.isEmpty = true) :
    (translate_texts_openai_async backend texts)[i]?
      = some (if (pyStrip (g (mkId i))).data.isEmpty
              then pyStrip (texts.get ⟨i, hi⟩)
              else g (mkId i)) := by
  obtain ⟨k, hk, hout⟩ := translate_getElem?_nonBlank backend texts i hi hne
  rw [hout, hb (chunkOfUnit texts k)]
  obtain ⟨hkne, hitem⟩ := List.getElem?_eq_some.mp hk
  have hmem0 : (⟨mkId i, pyStrip (texts.get ⟨i, hi⟩)⟩ : TransItem)
      ∈ chunkOfUnit texts k := by
    have hmem := mem_chunkOfUnit texts k hkne
    rw [List.get_eq_getElem, hitem] at hmem
    exact hmem
  have hmem1 : (⟨mkId i, pyStrip (texts.get ⟨i, hi⟩)⟩ : TransItem)
      ∈ perm (chunkOfUnit texts k) := (hperm _).mem_iff.mpr hmem0
  have hkey : mkId i ∈ ((perm (chunkOfUnit texts k)).map
      (fun item => (item.id, g item.id))).map Prod.fst := by
    rw [List.map_map]
    exact List.mem_map.mpr ⟨_, hmem1, rfl⟩
  obtain ⟨v, hv⟩ := Option.isSome_iff_exists.mp (dictGet_isSome_of_mem hkey)
  obtain ⟨item₂, hmem₂, heq₂⟩ := List.mem_map.mp (dictGet_mem hv)
  have hid : item₂.id = mkId i := congrArg Prod.fst heq₂
  have hvv : v = g (mkId i) := by
    rw [← hid]
    exact (congrArg Prod.snd heq₂).symm
  congr 1
  show (if (pyStrip ((dictGet ((perm (chunkOfUnit texts k)).map
          (fun item => (item.id, g item.id))) (mkId i)).getD
          (pyStrip (texts.get ⟨i, hi⟩)))).data.isEmpty
        then pyStrip (texts.get ⟨i, hi⟩)
        else (dictGet ((perm (chunkOfUnit texts k)).map
          (fun item => (item.id, g item.id))) (mkId i)).getD
          (pyStrip (texts.get ⟨i, hi⟩)))
      = if (pyStrip (g (mkId i))).data.isEmpty
        then pyStrip (texts.get ⟨i, hi⟩)
        else g (mkId i)
  rw [hv, hvv, Option.getD_some]

/-- Witness for C4 at `["b", "", " a "]`, unit 2, with every batch
listed in reversed order by the backend. -/
theorem c4_order_preservation_witness :
    (2 < (["b", "", " a "] : List String).length) ∧
      (¬(pyStrip ((["b", "", " a "] : List String).get ⟨2, by decide⟩)).data.isEmpty = true) ∧
      (translate_texts_openai_async
          (fun chunk => ChunkResult.ok
            ((chunk.reverse).map (fun item => (item.id, item.id ++ "!"))))
          ["b", "", " a "])[2]?
        = some (if (pyStrip (mkId 2 ++ "!")).data.isEmpty
                then pyStrip ((["b", "", " a "] : List String).get ⟨2, by decide⟩)
                else mkId 2 ++ "!") :=
  ⟨by decide, by decide,
    c4_order_preservation
      (fun chunk => ChunkResult.ok
        ((chunk.reverse).map (fun item => (item.id, item.id ++ "!"))))
      (fun s => s ++ "!") List.reverse
      (fun chunk => List.reverse_perm chunk)
      (fun chunk => rfl)
      ["b", "", " a "] 2 (by decide) (by decide)⟩

/-- The mock backend of the end-to-end scenario: translate every unit
by uppercasing it. -/
def upperBackend : Backend := fun chunk =>
  ChunkResult.ok (chunk.map (fun item => (item.id, pyUpper item.text)))

/-- A well-formed document with 3 slides and 5 non-empty text units
("Hello", "World", "Foo", "Bar", "Baz"), spread over a text frame, a
table (with blank cells) and a nested group. -/
def demoPres : Pres :=
  ⟨[[Shape.textFrame [["Hello"], ["World", ""]]],
    [Shape.table [["Foo", " "], ["", "Bar"]]],
    [Shape.group [Shape.textFrame [["Baz"]], Shape.other]]]⟩

/-- **C1, evaluated at the scenario input**: the document is analyzed
as 3 pages / 5 units, and the output document's five slots do contain
the uppercased texts in original traversal order — but the job ends
`failed`, not `completed`: `translate_pptx_async` returns the 2-tuple
`(len(prs.slides), applied_count)` (translator.py line 205) while the
scheduler unpacks three values
`pages, text_count, token_metrics = await translate_pptx_async(...)`
(main.py line 131), so after the output file is saved the unpack raises
`ValueError`, the `except` branch at main.py line 165 runs, and the job
is marked `"failed"`. -/
theorem c1_end_to_end_eval :
    (analyze_pptx (Except.ok demoPres)).pages = 3 ∧
      (analyze_pptx (Except.ok demoPres)).text_count = 5 ∧
      collectPres (run_job upperBackend demoPres).2
        = ["HELLO", "WORLD", "FOO", "BAR", "BAZ"] ∧
      job_status_trace upperBackend demoPres
        = [JobStatus.queued, JobStatus.processing, JobStatus.failed] := by
  refine ⟨by decide, by decide, by decide, by decide⟩

/-- **C5**: for every parsed document, the unit count reported by the
analysis pass equals the number of texts produced by the collection
pass that feeds translation — both run the identical traversal
(`collect_texts_from_shape` over every shape of every slide). -/
theorem c5_analyze_count_eq_collect (prs : Pres) :
    (analyze_pptx (Except.ok prs)).text_count = (collectPres prs).length := rfl

/-- **C9**: the analysis operation is total over every parse outcome:
a parse failure is mapped to
`{"pages": 0, "text_count": 0, "success": False, "error": str(e)}`
(nothing propagates), and a successful parse reports `success = True`. -/
theorem c9_analyze_total :
    (∀ e : String,
      analyze_pptx (Except.error e)
        = { pages := 0, text_count := 0, success := false, error := some e }) ∧
      ∀ prs : Pres, (analyze_pptx (Except.ok prs)).success = true :=
  ⟨fun _ => rfl, fun _ => rfl⟩

theorem findD_cons (f : String → Bool) (p : String) (ps : List String)
    (d : String) :
    ((p :: ps).find? f).getD d = if f p then p else ((ps.find? f).getD d) := by
  cases h : f p <;> simp [List.find?_cons, h]

/-- **C6**: `_normalize_model_name` normalizes by exact match against
the pricing table first, then takes the first matching substring
pattern of the ordered list `specPatterns`, falling back to
`"default"`; and `specPatterns` is ordered most-specific-first: no
earlier pattern occurs as a substring of a later one, so every more
specific variant name is checked before its more general parent
name. -/
theorem c6_normalize_exact_then_ordered_patterns :
    (∀ m : String, _normalize_model_name m = normalizeSpec m) ∧
      specPatterns.Pairwise (fun a b => containsSub a b = false) := by
  constructor
  · intro m
    unfold _normalize_model_name normalizeSpec specPatterns
    simp only [findD_cons, List.find?_nil, Option.getD_none]
  · decide

theorem round6_int (n : Int) (q : Rat) (h : q * 1000000 = (n : Rat)) :
    round6 q = (n : Rat) / 1000000 := by
  unfold round6 roundHalfEven
  rw [h, Int.floor_intCast]
  rw [if_pos]
  rw [sub_self]
  norm_num

/-- **C7**: for model `"gpt-4o-mini"`, 1000 input tokens and 500 output
tokens, the cost comes out as
`(1000/1000)·0.00015 + (500/1000)·0.00060 = 0.00045` USD
(`0.000450` after rounding to six decimals), with components
`0.000150` and `0.000300`. -/
theorem c7_cost_example :
    calculate_cost "gpt-4o-mini" 1000 500
        = { input_cost := 0.00015, output_cost := 0.0003,
            total_cost := 0.00045 } ∧
      (0.00045 : Rat)
        = ((1000 : Rat) / 1000) * 0.00015 + ((500 : Rat) / 1000) * 0.00060 := by
  constructor
  · have hnorm : _normalize_model_name "gpt-4o-mini" = "gpt-4o-mini" := by decide
    have hlook : PRICING.lookup "gpt-4o-mini"
        = some ⟨0.000150, 0.000600⟩ := rfl
    unfold calculate_cost
    have h1 : round6 ((((1000 : Nat) : Rat) / 1000) * (0.000150 : Rat))
        = 0.00015 := by
      rw [round6_int 150 _ (by norm_num)]
      norm_num
    have h2 : round6 ((((500 : Nat) : Rat) / 1000) * (0.000600 : Rat))
        = 0.0003 := by
      rw [round6_int 300 _ (by norm_num)]
      norm_num
    have h3 : round6 ((((1000 : Nat) : Rat) / 1000) * (0.000150 : Rat)
        + (((500 : Nat) : Rat) / 1000) * (0.000600 : Rat)) = 0.00045 := by
      rw [round6_int 450 _ (by norm_num)]
      norm_num
    simp only [hnorm, hlook, Option.getD_some, h1, h2, h3]
  · norm_num

/-- **C10**: the cost calculation only sees the model name through
`model_name.lower().strip()`, so it is invariant under letter case and
surrounding whitespace: `calculate_cost m i o` equals
`calculate_cost (lower(trim(m))) i o` for all token counts. -/
theorem c10_cost_case_whitespace_invariant (m : String)
    (i o : Nat) :
    calculate_cost m i o = calculate_cost (pyLower (pyStrip m)) i o := by
  have harg : pyStrip (pyLower (pyLower (pyStrip m))) = pyStrip (pyLower m) := by
    apply String.ext
    show stripList (((stripList m.data).map lowerChar).map lowerChar)
        = stripList (m.data.map lowerChar)
    rw [map_lowerChar_idem, stripList_map_lowerChar, stripList_idem,
      stripList_map_lowerChar]
  have hnorm : _normalize_model_name (pyLower (pyStrip m))
      = _normalize_model_name m := by
    unfold _normalize_model_name
    rw [harg]
  unfold calculate_cost
  rw [hnorm]

/-! ## Scheduler lemmas -/

theorem setStatus_map_fst (jobs : List (Nat × JobStatus)) (j : Nat)
    (st : JobStatus) :
    (setStatus jobs j st).map Prod.fst = jobs.map Prod.fst := by
  unfold setStatus
  rw [List.map_map]
  apply List.map_congr_left
  intro p _
  by_cases h : p.1 = j <;> simp [h]

theorem lookup_setStatus_ne (jobs : List (Nat × JobStatus)) (j j' : Nat)
    (st : JobStatus) (h : j' ≠ j) :
    (setStatus jobs j st).lookup j' = jobs.lookup j' := by
  induction jobs with
  | nil => rfl
  | cons p rest ih =>
    obtain ⟨a, b⟩ := p
    by_cases haj : a = j
    · show List.lookup j' ((if a = j then (a, st) else (a, b)) :: setStatus rest j st)
        = List.lookup j' ((a, b) :: rest)
      rw [if_pos haj, List.lookup_cons, List.lookup_cons]
      have hja : (j' == a) = false := by
        simp [haj, h]
      rw [hja]
      exact ih
    · show List.lookup j' ((if a = j then (a, st) else (a, b)) :: setStatus rest j st)
        = List.lookup j' ((a, b) :: rest)
      rw [if_neg haj, List.lookup_cons, List.lookup_cons]
      cases hja : j' == a
      · exact ih
      · rfl

theorem lookup_setStatus_self (jobs : List (Nat × JobStatus)) (j : Nat)
    (st : JobStatus) :
    (setStatus jobs j st).lookup j = (jobs.lookup j).map (fun _ => st) := by
  induction jobs with
  | nil => rfl
  | cons p rest ih =>
    obtain ⟨a, b⟩ := p
    by_cases haj : a = j
    · show List.lookup j ((if a = j then (a, st) else (a, b)) :: setStatus rest j st)
        = ((List.lookup j ((a, b) :: rest)).map (fun _ => st))
      rw [if_pos haj, List.lookup_cons, List.lookup_cons, haj]
      simp
    · show List.lookup j ((if a = j then (a, st) else (a, b)) :: setStatus rest j st)
        = ((List.lookup j ((a, b) :: rest)).map (fun _ => st))
      rw [if_neg haj, List.lookup_cons, List.lookup_cons]
      have hja : (j == a) = false := by
        simp only [beq_eq_false_iff_ne, ne_eq]
        exact fun hc => haj hc.symm
      rw [hja]
      exact ih

theorem lookup_setStatus_isSome (jobs : List (Nat × JobStatus)) (j j' : Nat)
    (st : JobStatus) :
    ((setStatus jobs j st).lookup j').isSome = (jobs.lookup j').isSome := by
  by_cases h : j' = j
  · rw [h, lookup_setStatus_self]
    cases jobs.lookup j <;> rfl
  · rw [lookup_setStatus_ne jobs j j' st h]

theorem lookup_append_pair (l₁ l₂ : List (Nat × JobStatus)) (k : Nat) :
    (l₁ ++ l₂).lookup k
      = match l₁.lookup k with
        | some v => some v
        | none => l₂.lookup k := by
  induction l₁ with
  | nil => rfl
  | cons p rest ih =>
    obtain ⟨a, b⟩ := p
    rw [List.cons_append, List.lookup_cons, List.lookup_cons]
    cases k == a
    · exact ih
    · rfl

theorem lookup_eq_none_of_not_mem {jobs : List (Nat × JobStatus)} {j : Nat}
    (h : jobs.lookup j = none) : j ∉ jobs.map Prod.fst := by
  induction jobs with
  | nil => simp
  | cons p rest ih =>
    obtain ⟨a, b⟩ := p
    rw [List.lookup_cons] at h
    cases hja : j == a
    · rw [hja] at h
      rw [List.map_cons, List.mem_cons]
      rintro (hc | hc)
      · rw [hc] at hja
        simp at hja
      · exact ih h hc
    · rw [hja] at h
      exact absurd h (by simp)

theorem lookup_eq_some_of_mem_nodup {jobs : List (Nat × JobStatus)}
    (hnd : (jobs.map Prod.fst).Nodup) {k : Nat} {v : JobStatus}
    (h : (k, v) ∈ jobs) : jobs.lookup k = some v := by
  induction jobs with
  | nil => simp at h
  | cons p rest ih =>
    obtain ⟨a, b⟩ := p
    rw [List.map_cons, List.nodup_cons] at hnd
    rcases List.mem_cons.mp h with hc | hc
    · cases hc
      rw [List.lookup_cons]
      simp
    · have hka : k ≠ a := by
        intro hk
        exact hnd.1 (hk ▸ List.mem_map.mpr ⟨(k, v), hc, rfl⟩)
      rw [List.lookup_cons]
      have : (k == a) = false := by simp [hka]
      rw [this]
      exact ih hnd.2 hc

theorem countProcessing_le (jobs : List (Nat × JobStatus))
    (inflight : List Nat) (hnd : (jobs.map Prod.fst).Nodup)
    (hsub : ∀ j, jobs.lookup j = some JobStatus.processing → j ∈ inflight) :
    countProcessing jobs ≤ inflight.length := by
  unfold countProcessing
  rw [List.countP_eq_length_filter]
  rw [show (jobs.filter (fun p => p.2 == JobStatus.processing)).length
      = ((jobs.filter (fun p => p.2 == JobStatus.processing)).map Prod.fst).length
    from (List.length_map _ _).symm]
  apply List.Subperm.length_le
  apply List.subperm_of_subset
  · exact ((List.filter_sublist _).map Prod.fst).nodup hnd
  · intro x hx
    obtain ⟨p, hp, rfl⟩ := List.mem_map.mp hx
    obtain ⟨hpj, hpproc⟩ := List.mem_filter.mp hp
    have hproc : p.2 = JobStatus.processing := by simpa using hpproc
    have hmem : (p.1, JobStatus.processing) ∈ jobs := by
      rw [← hproc]
      exact hpj
    exact hsub p.1 (lookup_eq_some_of_mem_nodup hnd hmem)

/-- Inductive invariant of the scheduler loop: the counter equals the
number of jobs inside the processing section, the counter respects the
bound, no job id occurs twice across queue and processing section,
registry keys are unique, every queued/in-flight id is registered, and
every job whose registered status is `processing` is inside the
processing section. -/
def SchedInv (N : Nat) (s : SchedState) : Prop :=
  s.processing_count = s.inflight.length ∧
  s.processing_count ≤ N ∧
  (s.queue ++ s.inflight).Nodup ∧
  (s.jobs.map Prod.fst).Nodup ∧
  (∀ j ∈ s.queue ++ s.inflight, (s.jobs.lookup j).isSome) ∧
  (∀ j, s.jobs.lookup j = some JobStatus.processing → j ∈ s.inflight)

theorem schedInv_init (N : Nat) : SchedInv N SchedInit := by
  refine ⟨rfl, Nat.zero_le N, by simp [SchedInit], by simp [SchedInit], ?_, ?_⟩
  · intro j hj
    simp [SchedInit] at hj
  · intro j hj
    simp [SchedInit, List.lookup] at hj

theorem schedInv_step {N : Nat} {s s' : SchedState}
    (hs : SchedInv N s) (hstep : SchedStep N s s') : SchedInv N s' := by
  obtain ⟨h1, h2, h3, h4, h5, h6⟩ := hs
  cases hstep with
  | submit j hfresh =>
    have hjnotkey : j ∉ s.jobs.map Prod.fst := lookup_eq_none_of_not_mem hfresh
    have hjnotqi : j ∉ s.queue ++ s.inflight := by
      intro hmem
      have := h5 j hmem
      rw [hfresh] at this
      simp at this
    have hperm : (s.queue ++ [j]) ++ s.inflight
        |>.Perm (j :: (s.queue ++ s.inflight)) := by
      rw [List.append_assoc]
      exact List.perm_middle
    refine ⟨h1, h2, ?_, ?_, ?_, ?_⟩
    · exact (List.Perm.nodup_iff hperm).mpr (List.nodup_cons.mpr ⟨hjnotqi, h3⟩)
    · rw [List.map_append]
      rw [List.nodup_append]
      refine ⟨h4, by simp, ?_⟩
      intro x hx
      simp only [List.map_cons, List.map_nil, List.mem_singleton]
      intro hxj
      exact hjnotkey (hxj ▸ hx)
    · intro j'' hmem
      rw [lookup_append_pair]
      cases hl : s.jobs.lookup j'' with
      | some v => simp
      | none =>
        have hj'' : j'' = j := by
          have hmem2 := hperm.mem_iff.mp hmem
          rcases List.mem_cons.mp hmem2 with hc | hc
          · exact hc
          · exact absurd (h5 j'' hc) (by rw [hl]; simp)
        rw [hj'']
        simp [List.lookup]
    · intro j' hl
      rw [lookup_append_pair] at hl
      cases hlj : s.jobs.lookup j' with
      | some v =>
        rw [hlj] at hl
        cases hl
        exact h6 j' hlj
      | none =>
        rw [hlj] at hl
        have hl2 : List.lookup j' [(j, JobStatus.queued)]
            = some JobStatus.processing := hl
        rw [List.lookup_cons] at hl2
        cases hjj : j' == j
        · rw [hjj] at hl2
          simp [List.lookup] at hl2
        · rw [hjj] at hl2
          simp at hl2
  | requeue j rest hq hfull =>
    have hperm : (rest ++ [j]) ++ s.inflight
        |>.Perm ((j :: rest) ++ s.inflight) := by
      rw [List.append_assoc, List.singleton_append, List.cons_append]
      exact List.perm_middle
    rw [hq] at h3 h5
    refine ⟨h1, h2, ?_, h4, ?_, h6⟩
    · exact (List.Perm.nodup_iff hperm).mpr h3
    · intro j'' hmem
      exact h5 j'' (hperm.mem_iff.mp hmem)
  | start j rest hq hfree =>
    rw [hq] at h3 h5
    have hperm : rest ++ (j :: s.inflight)
        |>.Perm ((j :: rest) ++ s.inflight) := by
      exact List.perm_middle.trans (by rw [List.cons_append])
    refine ⟨(by show s.processing_count + 1 = (j :: s.inflight).length; simp [h1]),
      (by show s.processing_count + 1 ≤ N; omega), ?_, ?_, ?_, ?_⟩
    · exact (List.Perm.nodup_iff hperm).mpr h3
    · rw [setStatus_map_fst]
      exact h4
    · intro j'' hmem
      rw [lookup_setStatus_isSome]
      exact h5 j'' (hperm.mem_iff.mp hmem)
    · intro j' hl
      by_cases hjj : j' = j
      · rw [hjj]
        exact List.mem_cons_self _ _
      · rw [lookup_setStatus_ne s.jobs j j' JobStatus.processing hjj] at hl
        exact List.mem_cons_of_mem _ (h6 j' hl)
  | finishOk j hmem =>
    refine ⟨?_, by show s.processing_count - 1 ≤ N; omega, ?_, ?_, ?_, ?_⟩
    · show s.processing_count - 1 = (s.inflight.erase j).length
      rw [h1, List.length_erase_of_mem hmem]
    · exact ((List.erase_sublist j s.inflight).append_left s.queue).nodup h3
    · show ((setStatus s.jobs j JobStatus.completed).map Prod.fst).Nodup
      rw [setStatus_map_fst]
      exact h4
    · intro j'' hmem2
      show ((setStatus s.jobs j JobStatus.completed).lookup j'').isSome = true
      rw [lookup_setStatus_isSome]
      apply h5
      rcases List.mem_append.mp hmem2 with hc | hc
      · exact List.mem_append.mpr (Or.inl hc)
      · exact List.mem_append.mpr (Or.inr (List.mem_of_mem_erase hc))
    · intro j' hl
      by_cases hjj : j' = j
      · rw [hjj, lookup_setStatus_self] at hl
        rcases Option.map_eq_some'.mp hl with ⟨v, _, hv2⟩
        cases hv2
      · rw [lookup_setStatus_ne s.jobs j j' JobStatus.completed hjj] at hl
        exact (List.mem_erase_of_ne hjj).mpr (h6 j' hl)
  | finishFail j hmem =>
    refine ⟨?_, by show s.processing_count - 1 ≤ N; omega, ?_, ?_, ?_, ?_⟩
    · show s.processing_count - 1 = (s.inflight.erase j).length
      rw [h1, List.length_erase_of_mem hmem]
    · exact ((List.erase_sublist j s.inflight).append_left s.queue).nodup h3
    · show ((setStatus s.jobs j JobStatus.failed).map Prod.fst).Nodup
      rw [setStatus_map_fst]
      exact h4
    · intro j'' hmem2
      show ((setStatus s.jobs j JobStatus.failed).lookup j'').isSome = true
      rw [lookup_setStatus_isSome]
      apply h5
      rcases List.mem_append.mp hmem2 with hc | hc
      · exact List.mem_append.mpr (Or.inl hc)
      · exact List.mem_append.mpr (Or.inr (List.mem_of_mem_erase hc))
    · intro j' hl
      by_cases hjj : j' = j
      · rw [hjj, lookup_setStatus_self] at hl
        rcases Option.map_eq_some'.mp hl with ⟨v, _, hv2⟩
        cases hv2
      · rw [lookup_setStatus_ne s.jobs j j' JobStatus.failed hjj] at hl
        exact (List.mem_erase_of_ne hjj).mpr (h6 j' hl)

/-- **C8**: in every state the scheduler can reach under concurrency
bound `N` (`MAX_CONCURRENT_TRANSLATIONS`) — in particular along any
sequence of `K > N` submissions interleaved with loop steps — at most
`N` registered jobs are simultaneously in the `processing` state: the
loop admits a pulled job only while `processing_count < N`
(main.py lines 113-119). -/
theorem c8_concurrency_bound (N : Nat) (s : SchedState)
    (hreach : SchedReachable N s) : countProcessing s.jobs ≤ N := by
  have hinv : SchedInv N s := by
    induction hreach with
    | refl => exact schedInv_init N
    | tail _ hstep ih => exact schedInv_step ih hstep
  obtain ⟨h1, h2, _, h4, _, h6⟩ := hinv
  calc countProcessing s.jobs
      ≤ s.inflight.length := countProcessing_le s.jobs s.inflight h4 h6
    _ = s.processing_count := h1.symm
    _ ≤ N := h2

/-- Witness for C8: bound `N = 1`, two submissions (`K = 2 > N`), one
job admitted — the reached registry has at most one processing job. -/
theorem c8_concurrency_bound_witness :
    countProcessing [(0, JobStatus.processing), (1, JobStatus.queued)] ≤ 1 :=
  c8_concurrency_bound 1
    ⟨[1], [0], [(0, JobStatus.processing), (1, JobStatus.queued)], 1⟩
    (Relation.ReflTransGen.tail
      (Relation.ReflTransGen.tail
        (Relation.ReflTransGen.tail Relation.ReflTransGen.refl
          (SchedStep.submit SchedInit 0 rfl))
        (SchedStep.submit ⟨[0], [], [(0, JobStatus.queued)], 0⟩ 1 rfl))
      (SchedStep.start ⟨[0, 1], [], [(0, JobStatus.queued), (1, JobStatus.queued)], 0⟩
        0 [1] rfl (by decide)))
